import Mathlib

/-!
A verification development for the `sqlite-exploration` repository: a
read-only query engine over the SQLite 3 file format.  Go code is embedded
shallowly: byte buffers become `List Nat` (entries below 256), Go's `int64`
and `uint64` become `Nat` bit patterns reduced modulo `2 ^ 64` (or `Int`
where the signed value matters), fallible functions return `Option` or
`Except`.
-/

set_option maxRecDepth 100000

namespace SqliteExploration

/-- Loop body of `readVarint` (util.go): `i` is the byte index, `acc` the
64-bit accumulator (`int64` bit pattern, kept below `2 ^ 64`), `read` the
count of consumed bytes.  Bytes 0–7 contribute their low 7 bits
(`(varint << 7) | (b & 0x7f)`), stopping when the high bit is clear; the
9th byte (index 8) contributes all 8 bits and always stops. -/
def readVarintGo : List Nat → Nat → Nat → Nat → Nat × Nat
  | [], _, acc, read => (acc, read)
  | b :: rest, i, acc, read =>
    if i = 8 then ((acc * 256 + b) % 2 ^ 64, read + 1)
    else if b < 128 then ((acc * 128 + b % 128) % 2 ^ 64, read + 1)
    else readVarintGo rest (i + 1) ((acc * 128 + b % 128) % 2 ^ 64) (read + 1)

/-- `readVarint` (util.go): decodes a big-endian SQLite varint from the
front of `buf`, returning the 64-bit value (as its bit pattern) and the
number of bytes consumed. -/
def readVarint (buf : List Nat) : Nat × Nat := readVarintGo buf 0 0 0

/-- For a non-empty buffer at least one byte is consumed. -/
theorem readVarintGo_snd_pos : ∀ (buf : List Nat) (i acc read : Nat), buf ≠ [] →
    read + 1 ≤ (readVarintGo buf i acc read).2 := by
  intro buf
  induction buf with
  | nil => intro i acc read h; exact absurd rfl h
  | cons b rest ih =>
    intro i acc read _
    simp only [readVarintGo]
    split
    · simp
    · split
      · simp
      · cases rest with
        | nil => simp [readVarintGo]
        | cons c tl =>
          have h := ih (i + 1) ((acc * 128 + b % 128) % 2 ^ 64) (read + 1) (by simp)
          omega

/-- At most the whole buffer is consumed. -/
theorem readVarintGo_snd_le : ∀ (buf : List Nat) (i acc read : Nat),
    (readVarintGo buf i acc read).2 ≤ read + buf.length := by
  intro buf
  induction buf with
  | nil => intro i acc read; simp [readVarintGo]
  | cons b rest ih =>
    intro i acc read
    simp only [readVarintGo]
    split
    · simp
    · split
      · simp
      · have h := ih (i + 1) ((acc * 128 + b % 128) % 2 ^ 64) (read + 1)
        simp only [List.length_cons]
        omega

theorem readVarint_snd_pos (buf : List Nat) (h : buf ≠ []) :
    1 ≤ (readVarint buf).2 :=
  readVarintGo_snd_pos buf 0 0 0 h

theorem readVarint_snd_le (buf : List Nat) : (readVarint buf).2 ≤ buf.length := by
  simpa using readVarintGo_snd_le buf 0 0 0

/-- The loop of `readVarints` (util.go), with a fuel argument for
structural recursion; `readVarints` supplies the buffer length as the
fuel, which the loop never exhausts since every iteration consumes at
least one byte. -/
def readVarintsGo : Nat → List Nat → List Nat × Nat
  | 0, _ => ([], 0)
  | _ + 1, [] => ([], 0)
  | fuel + 1, b :: rest =>
    ((readVarint (b :: rest)).1 ::
        (readVarintsGo fuel ((b :: rest).drop (readVarint (b :: rest)).2)).1,
      (readVarint (b :: rest)).2 +
        (readVarintsGo fuel ((b :: rest).drop (readVarint (b :: rest)).2)).2)

/-- `readVarints` (util.go): repeatedly decodes varints until the slice is
exhausted, returning the decoded values and the total bytes consumed. -/
def readVarints (data : List Nat) : List Nat × Nat :=
  readVarintsGo data.length data

theorem readVarintsGo_consumes : ∀ (fuel : Nat) (l : List Nat), l.length ≤ fuel →
    (readVarintsGo fuel l).2 = l.length := by
  intro fuel
  induction fuel with
  | zero =>
    intro l h
    have : l = [] := List.eq_nil_of_length_eq_zero (by omega)
    subst this
    simp [readVarintsGo]
  | succ n ih =>
    intro l h
    cases l with
    | nil => simp [readVarintsGo]
    | cons b rest =>
      simp only [readVarintsGo]
      have h1 : 1 ≤ (readVarint (b :: rest)).2 := readVarint_snd_pos _ (by simp)
      have h2 : (readVarint (b :: rest)).2 ≤ (b :: rest).length := readVarint_snd_le _
      have h3 := ih ((b :: rest).drop (readVarint (b :: rest)).2)
        (by
          simp only [List.length_drop]
          simp only [List.length_cons] at h ⊢
          omega)
      simp only [List.length_drop, List.length_cons] at h3
      simp only [List.length_cons] at h2 ⊢
      omega

/-- `readVarints` consumes its input exactly. -/
theorem readVarints_consumes (data : List Nat) : (readVarints data).2 = data.length :=
  readVarintsGo_consumes data.length data le_rfl

/-- Big-endian list of `k` seven-bit groups of `u` (low `7 * k` bits). -/
def sevenGroups : Nat → Nat → List Nat
  | _, 0 => []
  | u, k + 1 => sevenGroups (u / 128) k ++ [u % 128]

/-- Sets the continuation bit (adds `0x80`) on every byte but the last. -/
def markCont : List Nat → List Nat
  | [] => []
  | [b] => [b]
  | b :: c :: rest => (b + 128) :: markCont (c :: rest)

/-- Byte length of the canonical varint encoding of `u`. -/
def varintLen (u : Nat) : Nat :=
  if u < 128 ^ 1 then 1
  else if u < 128 ^ 2 then 2
  else if u < 128 ^ 3 then 3
  else if u < 128 ^ 4 then 4
  else if u < 128 ^ 5 then 5
  else if u < 128 ^ 6 then 6
  else if u < 128 ^ 7 then 7
  else if u < 128 ^ 8 then 8
  else 9

/-- Modelled from the spec: the canonical SQLite varint encoding (the
repository is a read-only decoder and contains no encoder).  A varint is
1–9 bytes, big-endian, 7 bits per byte with the high bit as continuation;
a 9-byte encoding's first 8 bytes all carry the continuation bit and its
9th byte contributes all 8 bits of the value's low byte. -/
def encodeVarint (u : Nat) : List Nat :=
  if u < 128 ^ 8 then markCont (sevenGroups u (varintLen u))
  else (sevenGroups (u / 256) 8).map (· + 128) ++ [u % 256]

theorem sevenGroups_length (u k : Nat) : (sevenGroups u k).length = k := by
  induction k generalizing u with
  | zero => rfl
  | succ k ih => simp [sevenGroups, ih]

theorem sevenGroups_lt (u k : Nat) : ∀ g ∈ sevenGroups u k, g < 128 := by
  induction k generalizing u with
  | zero => simp [sevenGroups]
  | succ k ih =>
    intro g hg
    simp only [sevenGroups, List.mem_append, List.mem_singleton] at hg
    rcases hg with hg | hg
    · exact ih _ _ hg
    · omega

theorem markCont_length (l : List Nat) : (markCont l).length = l.length := by
  induction l with
  | nil => rfl
  | cons b rest ih =>
    cases rest with
    | nil => rfl
    | cons c tl =>
      simp only [markCont, List.length_cons] at ih ⊢
      omega

theorem sevenGroups_foldl (k : Nat) (u acc : Nat) (h : u < 128 ^ k) :
    List.foldl (fun a g => a * 128 + g) acc (sevenGroups u k) = acc * 128 ^ k + u := by
  induction k generalizing u acc with
  | zero =>
    simp only [pow_zero, Nat.lt_one_iff] at h
    subst h
    simp [sevenGroups]
  | succ k ih =>
    have hdiv : u / 128 < 128 ^ k := by
      rw [Nat.div_lt_iff_lt_mul (by norm_num)]
      calc u < 128 ^ (k + 1) := h
        _ = 128 ^ k * 128 := by ring
    simp only [sevenGroups, List.foldl_append, List.foldl_cons, List.foldl_nil]
    rw [ih _ _ hdiv]
    have hp : 128 ^ (k + 1) = 128 ^ k * 128 := by ring
    have hm := Nat.div_add_mod u 128
    rw [hp]
    ring_nf
    omega

/-- Decoding over a continuation-marked group list: the accumulator folds in
each 7-bit group and stops at the last (unmarked) byte, ignoring anything
after it. -/
theorem readVarintGo_markCont (gs : List Nat) (rest : List Nat) (i acc read : Nat)
    (hne : gs ≠ []) (hlt : ∀ g ∈ gs, g < 128) (hi : i + gs.length ≤ 8)
    (hacc : acc < 2 ^ (7 * i)) :
    readVarintGo (markCont gs ++ rest) i acc read
      = (List.foldl (fun a g => a * 128 + g) acc gs, read + gs.length) := by
  induction gs generalizing i acc read with
  | nil => exact absurd rfl hne
  | cons g tl ih =>
    have hg : g < 128 := hlt g (by simp)
    have hi7 : i ≤ 7 := by simp only [List.length_cons] at hi; omega
    have hstep : acc * 128 + g < 2 ^ (7 * (i + 1)) := by
      have hpe : (2 : Nat) ^ (7 * (i + 1)) = 2 ^ (7 * i) * 128 := by
        rw [show 7 * (i + 1) = 7 * i + 7 by ring, pow_add]
        norm_num
      nlinarith
    have hacc2 : acc * 128 + g < 2 ^ 64 := by
      have h2 : (2 : Nat) ^ (7 * (i + 1)) ≤ 2 ^ 56 :=
        Nat.pow_le_pow_right (by norm_num) (by omega)
      have h3 : (2 : Nat) ^ 56 < 2 ^ 64 := by norm_num
      omega
    cases tl with
    | nil =>
      simp only [markCont, List.cons_append, readVarintGo]
      rw [if_neg (show ¬ i = 8 by omega), if_pos hg, Nat.mod_eq_of_lt hg,
        Nat.mod_eq_of_lt hacc2]
      simp
    | cons c tl' =>
      simp only [markCont, List.cons_append, readVarintGo]
      rw [if_neg (show ¬ i = 8 by omega), if_neg (show ¬ g + 128 < 128 by omega),
        show (g + 128) % 128 = g by omega, Nat.mod_eq_of_lt hacc2]
      simp only [List.append_eq]
      rw [ih (i + 1) (acc * 128 + g) (read + 1) (by simp)
        (fun x hx => hlt x (List.mem_cons_of_mem _ hx))
        (by simp only [List.length_cons] at hi ⊢; omega) hstep]
      simp only [List.foldl_cons, List.length_cons, Prod.mk.injEq, true_and]
      omega

/-- Decoding over bytes that all carry the continuation bit: the
accumulator folds in every 7-bit group and decoding continues into the
remainder of the buffer with the byte index advanced. -/
theorem readVarintGo_contAll (gs : List Nat) (rest : List Nat) (i acc read : Nat)
    (hlt : ∀ g ∈ gs, g < 128) (hi : i + gs.length ≤ 8) (hacc : acc < 2 ^ (7 * i)) :
    readVarintGo (gs.map (· + 128) ++ rest) i acc read
      = readVarintGo rest (i + gs.length)
          (List.foldl (fun a g => a * 128 + g) acc gs) (read + gs.length) := by
  induction gs generalizing i acc read with
  | nil => simp
  | cons g tl ih =>
    have hg : g < 128 := hlt g (by simp)
    have hi7 : i ≤ 7 := by simp only [List.length_cons] at hi; omega
    have hstep : acc * 128 + g < 2 ^ (7 * (i + 1)) := by
      have hpe : (2 : Nat) ^ (7 * (i + 1)) = 2 ^ (7 * i) * 128 := by
        rw [show 7 * (i + 1) = 7 * i + 7 by ring, pow_add]
        norm_num
      nlinarith
    have hacc2 : acc * 128 + g < 2 ^ 64 := by
      have h2 : (2 : Nat) ^ (7 * (i + 1)) ≤ 2 ^ 56 :=
        Nat.pow_le_pow_right (by norm_num) (by omega)
      have h3 : (2 : Nat) ^ 56 < 2 ^ 64 := by norm_num
      omega
    simp only [List.map_cons, List.cons_append, readVarintGo]
    rw [if_neg (show ¬ i = 8 by omega), if_neg (show ¬ g + 128 < 128 by omega),
      show (g + 128) % 128 = g by omega, Nat.mod_eq_of_lt hacc2]
    simp only [List.append_eq, List.foldl_cons, List.length_cons]
    rw [show i + (tl.length + 1) = (i + 1) + tl.length from by omega,
      show read + (tl.length + 1) = (read + 1) + tl.length from by omega]
    exact ih (i + 1) (acc * 128 + g) (read + 1)
      (fun x hx => hlt x (List.mem_cons_of_mem _ hx))
      (by simp only [List.length_cons] at hi ⊢; omega) hstep

theorem varintLen_spec (u : Nat) (h : u < 128 ^ 8) :
    u < 128 ^ varintLen u ∧ 1 ≤ varintLen u ∧ varintLen u ≤ 8 := by
  unfold varintLen
  repeat' split
  all_goals first
    | exact ⟨by assumption, by norm_num, by norm_num⟩
    | exact absurd h (by assumption)

/-- C1: for every unsigned 64-bit integer `u`, decoding the canonical
SQLite varint encoding of `u` with `readVarint` — even with arbitrary
trailing bytes after the encoding — yields the 64 bits of `u` together
with the number of bytes of the encoding; that count lies in `[1, 9]`.
Since `rest` is arbitrary and a 9-byte encoding's final byte carries its
high bit purely as data (the decoder stops at the 9th byte
unconditionally), a 9-byte encoding decodes to the same 64 bits
regardless of the continuation bit of its final byte. -/
theorem C1_varint_roundtrip (u : Nat) (hu : u < 2 ^ 64) (rest : List Nat) :
    readVarint (encodeVarint u ++ rest) = (u, (encodeVarint u).length)
      ∧ 1 ≤ (encodeVarint u).length ∧ (encodeVarint u).length ≤ 9 := by
  unfold readVarint encodeVarint
  by_cases h8 : u < 128 ^ 8
  · rw [if_pos h8]
    obtain ⟨hub, h1, hle⟩ := varintLen_spec u h8
    have hlen : (markCont (sevenGroups u (varintLen u))).length = varintLen u := by
      rw [markCont_length, sevenGroups_length]
    have hne : sevenGroups u (varintLen u) ≠ [] := by
      intro hcon
      have := sevenGroups_length u (varintLen u)
      rw [hcon] at this
      simp at this
      omega
    rw [readVarintGo_markCont _ rest 0 0 0 hne (sevenGroups_lt u _)
      (by rw [sevenGroups_length]; omega) (by norm_num)]
    rw [sevenGroups_foldl _ _ _ hub]
    refine ⟨?_, by omega, by omega⟩
    rw [hlen, sevenGroups_length]
    simp
  · rw [if_neg h8]
    have hq : u / 256 < 128 ^ 8 := by
      rw [Nat.div_lt_iff_lt_mul (by norm_num)]
      calc u < 2 ^ 64 := hu
        _ = 128 ^ 8 * 256 := by norm_num
    rw [List.append_assoc, List.singleton_append,
      readVarintGo_contAll _ (u % 256 :: rest) 0 0 0 (sevenGroups_lt _ _)
        (by rw [sevenGroups_length]) (by norm_num)]
    rw [sevenGroups_foldl _ _ _ hq]
    simp only [readVarintGo, sevenGroups_length, Nat.zero_mul, Nat.zero_add,
      if_pos rfl]
    have hu2 : u / 256 * 256 + u % 256 = u := by
      have := Nat.div_add_mod u 256
      omega
    rw [hu2, Nat.mod_eq_of_lt hu]
    refine ⟨?_, by simp [sevenGroups_length], by simp [sevenGroups_length]⟩
    simp [List.length_append, List.length_map, sevenGroups_length]

/-- Witness for C1 at `u = 2 ^ 60` with trailing garbage `[5]`. -/
theorem C1_varint_roundtrip_witness :
    2 ^ 60 < 2 ^ 64 ∧
      (readVarint (encodeVarint (2 ^ 60) ++ [5])
          = (2 ^ 60, (encodeVarint (2 ^ 60)).length)
        ∧ 1 ≤ (encodeVarint (2 ^ 60)).length ∧ (encodeVarint (2 ^ 60)).length ≤ 9) :=
  ⟨by norm_num, C1_varint_roundtrip (2 ^ 60) (by norm_num) [5]⟩

/-- `DatabaseHeaderSize` (file.go): the 100-byte database header. -/
def DatabaseHeaderSize : Int := 100

/-- `pageNumberToOffset` (util.go): file offset of page `pageNumber`. -/
def pageNumberToOffset (pageSize pageNumber : Int) : Int :=
  pageSize * (pageNumber - 1)

/-- The location and root flag of a loaded `page` (page.go); the remaining
fields of the Go struct do not take part in cell-offset arithmetic. -/
structure GoPage where
  Offset : Int
  IsRoot : Bool

/-- The root page as built by `newDatabaseFile` (file.go): page 1, whose
page header begins at the end of the 100-byte database header
(`newPage(db.File, true, header.PageSize, DatabaseHeaderSize)`). -/
def rootPageLoc : GoPage := ⟨DatabaseHeaderSize, true⟩

/-- A non-root page as built by `newPageFromNumber` (file.go):
`newPage(d.File, false, d.Header.PageSize, pageNumberToOffset(...))`. -/
def pageFromNumberLoc (pageSize pageNumber : Int) : GoPage :=
  ⟨pageNumberToOffset pageSize pageNumber, false⟩

/-- The file offset `newCell` (cell.go) seeks to before parsing a cell:
`cellOffset := offset; if !p.IsRoot { cellOffset += p.Offset }`. -/
def newCellSeekOffset (p : GoPage) (offset : Int) : Int :=
  if p.IsRoot then offset else offset + p.Offset

/-- C2: a cell-pointer value on page 1 (the schema root, whose page header
begins at file offset 100) is used as a file-absolute offset, with no page
base added; on any other page `n ≥ 2` the cell is parsed at
`page_size * (n - 1) + off`. -/
theorem C2_cell_offsets (pageSize n off : Int) (hn : 2 ≤ n) :
    newCellSeekOffset rootPageLoc off = off
      ∧ newCellSeekOffset (pageFromNumberLoc pageSize n) off
          = pageSize * (n - 1) + off := by
  constructor
  · rfl
  · simp [newCellSeekOffset, pageFromNumberLoc, pageNumberToOffset]
    ring

/-- Witness for C2 with page size 4096, page 3, cell offset 500. -/
theorem C2_cell_offsets_witness :
    (2 : Int) ≤ 3 ∧
      (newCellSeekOffset rootPageLoc 500 = 500
        ∧ newCellSeekOffset (pageFromNumberLoc 4096 3) 500 = 4096 * (3 - 1) + 500) :=
  ⟨by norm_num, C2_cell_offsets 4096 3 500 (by norm_num)⟩

/-- Reinterpret a `Nat` bit pattern as a signed 8-bit value (Go `int8`). -/
def toInt8 (b : Nat) : Int := if b < 128 then (b : Int) else (b : Int) - 256

/-- Reinterpret a `Nat` bit pattern as a signed 16-bit value (Go `int16`). -/
def toInt16 (n : Nat) : Int := if n < 2 ^ 15 then (n : Int) else (n : Int) - 2 ^ 16

/-- Reinterpret a `Nat` bit pattern as a signed 32-bit value (Go `int32`). -/
def toInt32 (n : Nat) : Int := if n < 2 ^ 31 then (n : Int) else (n : Int) - 2 ^ 32

/-- Reinterpret a `Nat` bit pattern as a signed 64-bit value (Go `int64`). -/
def toInt64 (n : Nat) : Int := if n < 2 ^ 63 then (n : Int) else (n : Int) - 2 ^ 64

/-- Big-endian assembly of a byte list into a `Nat`. -/
def beNat (l : List Nat) : Nat := l.foldl (fun a b => a * 256 + b) 0

/-- Serial-type constants (cell.go, the `serialType` iota block). -/
def SerialNull : Int := 0

def Serial8TwosComplement : Int := 1

def Serial16TwosComplement : Int := 2

def Serial24TwosComplement : Int := 3

def Serial32TwosComplement : Int := 4

def Serial48TwosComplement : Int := 5

def Serial64TwosComplement : Int := 6

def SerialFloat : Int := 7

def Serial0 : Int := 8

def Serial1 : Int := 9

def SerialInternal1 : Int := 10

def SerialInternal2 : Int := 11

def SerialBlob : Int := 12

def SerialText : Int := 13

/-- `cellHeader` (cell.go): a decoded serial-type descriptor, with the
field size in bytes.  `type` carries the Go `serialType`. -/
structure CellHeader where
  type : Int
  size : Int
deriving DecidableEq

/-- `newCellHeader` (cell.go): maps a decoded serial-type varint to a
descriptor.  Odd varints above 13 become text, even varints above 12
become blob; types 5/6/7 get their fixed sizes, 8/9 size zero; every
other varint is passed through as both type and size. -/
def newCellHeader (variant : Int) : CellHeader :=
  if variant > SerialText ∧ variant % 2 = 1 then ⟨SerialText, (variant - 13) / 2⟩
  else if variant > SerialBlob ∧ variant % 2 = 0 then ⟨SerialBlob, (variant - 12) / 2⟩
  else if variant = Serial48TwosComplement then ⟨Serial48TwosComplement, 6⟩
  else if variant = Serial64TwosComplement then ⟨Serial64TwosComplement, 8⟩
  else if variant = SerialFloat then ⟨SerialFloat, 8⟩
  else if variant = Serial0 then ⟨Serial0, 0⟩
  else if variant = Serial1 then ⟨Serial1, 0⟩
  else ⟨variant, variant⟩

/-- `cell` (cell.go), restricted to the fields a leaf-table cell
populates.  `HeaderSize` is the Go `uint8` field (kept below 256),
`PayloadSize` the Go `uint64` field (kept below `2 ^ 64`). -/
structure Cell where
  RowID : Int
  HeaderSize : Nat
  PayloadSize : Nat
  FirstOverflow : Nat
  Header : List CellHeader
  Data : List Nat
deriving DecidableEq

/-- First varint of a leaf-table cell: the payload length. -/
def leafVarint1 (buf : List Nat) : Nat × Nat := readVarint buf

/-- Second varint of a leaf-table cell: the row id. -/
def leafVarint2 (buf : List Nat) : Nat × Nat :=
  readVarint (buf.drop (leafVarint1 buf).2)

/-- Third varint of a leaf-table cell: the record-header length, read at
the start of the record (`readVarint(buf[offset:])` with `offset` just
past the row id). -/
def leafVarint3 (buf : List Nat) : Nat × Nat :=
  readVarint (buf.drop ((leafVarint1 buf).2 + (leafVarint2 buf).2))

/-- `parseLeafTableCell` (cell.go): payload-length varint, row-id varint,
header-length varint; `HeaderSize = uint8(headerLength)`;
`PayloadSize = uint64(payloadLength) - uint64(HeaderSize)` (wrapping);
the header region is `HeaderSize` bytes starting at the header-length
varint; the serial-type varints are decoded from `headerBuf[1:]` — the
source always skips exactly one byte ("skip header size byte"); then
`PayloadSize` bytes of payload and a 4-byte big-endian overflow page
number.  A short `ReadAt` or out-of-range slice (including the
`headerBuf[1:]` panic when `HeaderSize = 0`) yields `none`. -/
def parseLeafTableCell (buf : List Nat) : Option Cell :=
  let pl := leafVarint1 buf
  let rid := leafVarint2 buf
  let hl := leafVarint3 buf
  let off1 := pl.2 + rid.2
  let headerSize := hl.1 % 256
  let payloadSize := (pl.1 + (2 ^ 64 - headerSize)) % 2 ^ 64
  if off1 + headerSize ≤ buf.length then
    if headerSize = 0 then none
    else
      let headerBuf := (buf.drop off1).take headerSize
      let variants := (readVarints (headerBuf.drop 1)).1
      let off2 := off1 + headerSize
      if off2 + payloadSize ≤ buf.length then
        let off3 := off2 + payloadSize
        if off3 + 4 ≤ buf.length then
          some
            { RowID := toInt64 rid.1
              HeaderSize := headerSize
              PayloadSize := payloadSize
              FirstOverflow := beNat ((buf.drop off3).take 4)
              Header := variants.map (fun v => newCellHeader (toInt64 v))
              Data := (buf.drop off2).take payloadSize }
        else none
      else none
  else none

/-- The number of record-header bytes actually covered by the serial-type
varints decoded by `parseLeafTableCell`: `readVarints(headerBuf[1:])`. -/
def leafCellSerialBytesCovered (buf : List Nat) : Nat :=
  let off1 := (leafVarint1 buf).2 + (leafVarint2 buf).2
  let headerSize := (leafVarint3 buf).1 % 256
  (readVarints (((buf.drop off1).take headerSize).drop 1)).2

/-- `HeaderOffsetFromN` (cell.go): byte offset of the `n`-th field within
the payload body — the sum of the sizes of the preceding fields; zero
when `n` is out of range. -/
def HeaderOffsetFromN (c : Cell) (n : Nat) : Int :=
  if c.Header.length ≤ n then 0
  else ((c.Header.take n).map CellHeader.size).sum

/-- A Go slice expression `l[start:stop]`; `none` models the runtime
panic on an out-of-range slice. -/
def goSlice (l : List Nat) (start stop : Int) : Option (List Nat) :=
  if 0 ≤ start ∧ start ≤ stop ∧ stop ≤ l.length then
    some ((l.drop start.toNat).take (stop - start).toNat)
  else none

/-- The dynamic type of the `any` value returned by
`ReadDataFromHeaderIndex`: `int64`, untyped-constant `int` (cases 8 and
9 return the literals `0` and `1`), `float64` (carried as its bit
pattern) or `string` (carried as its bytes). -/
inductive GoVal where
  | i64 : Int → GoVal
  | goInt : Int → GoVal
  | f64 : Nat → GoVal
  | str : List Nat → GoVal
deriving DecidableEq

/-- The 24-bit big-endian bit pattern `b0 << 16 | b1 << 8 | b2`. -/
def raw24 (b0 b1 b2 : Nat) : Int := (b0 : Int) * 65536 + (b1 : Int) * 256 + (b2 : Int)

/-- Sign extension from bit 23 (cell.go, serial type 3: "Check if it's
negative and convert it accordingly" — `val |= ^((1<<24)-1)`). -/
def signed24 (raw : Int) : Int := if 2 ^ 23 ≤ raw then raw - 2 ^ 24 else raw

/-- The 48-bit big-endian bit pattern of six bytes. -/
def raw48 (b0 b1 b2 b3 b4 b5 : Nat) : Int :=
  (b0 : Int) * 2 ^ 40 + (b1 : Int) * 2 ^ 32 + (b2 : Int) * 2 ^ 24
    + (b3 : Int) * 2 ^ 16 + (b4 : Int) * 256 + (b5 : Int)

/-- Sign extension from bit 47 (cell.go, serial type 5:
`val |= ^((1<<48)-1)`). -/
def signed48 (raw : Int) : Int := if 2 ^ 47 ≤ raw then raw - 2 ^ 48 else raw

/-- `ReadDataFromHeaderIndex` (cell.go): slices the field's bytes out of
the payload body and decodes them by serial type.  The Go switch covers
types 1–9 and 13; its `case 12:` has an empty body and does not fall
through to `case 13`, so type 12 (blob) reaches the trailing
`unsupported format` error exactly like the absent types 0, 10 and 11.
Runtime panics (bad index or slice) are modelled as distinguished
errors. -/
def ReadDataFromHeaderIndex (c : Cell) (headerIdx : Nat) : Except String GoVal :=
  match c.Header[headerIdx]? with
  | none => .error "panic: header index out of range"
  | some h =>
    let start := HeaderOffsetFromN c headerIdx
    match goSlice c.Data start (start + h.size) with
    | none => .error "panic: data slice out of range"
    | some data =>
      if h.type = 1 then
        match data with
        | b :: _ => .ok (.i64 (toInt8 b))
        | [] => .error "panic: byte index out of range"
      else if h.type = 2 then
        match data with
        | b0 :: b1 :: _ => .ok (.i64 (toInt16 (b0 * 256 + b1)))
        | _ => .error "panic: byte index out of range"
      else if h.type = 3 then
        match data with
        | b0 :: b1 :: b2 :: _ => .ok (.i64 (signed24 (raw24 b0 b1 b2)))
        | _ => .error "panic: byte index out of range"
      else if h.type = 4 then
        match data with
        | b0 :: b1 :: b2 :: b3 :: _ =>
          .ok (.i64 (toInt32 (((b0 * 256 + b1) * 256 + b2) * 256 + b3)))
        | _ => .error "panic: byte index out of range"
      else if h.type = 5 then
        match data with
        | b0 :: b1 :: b2 :: b3 :: b4 :: b5 :: _ =>
          .ok (.i64 (signed48 (raw48 b0 b1 b2 b3 b4 b5)))
        | _ => .error "panic: byte index out of range"
      else if h.type = 6 then
        if data.length ≥ 8 then .ok (.i64 (toInt64 (beNat (data.take 8))))
        else .error "panic: byte index out of range"
      else if h.type = 7 then
        if data.length ≥ 8 then .ok (.f64 (beNat (data.take 8)))
        else .error "panic: byte index out of range"
      else if h.type = 8 then .ok (.goInt 0)
      else if h.type = 9 then .ok (.goInt 1)
      else if h.type = 13 then .ok (.str data)
      else .error ("unsupported format: " ++ toString h.type)

/-- C3 (amended): the serial-type varints decoded into the field list
cover exactly `header_size - 1` bytes of the record header: the parser
skips exactly one byte (`headerBuf[1:]`, "skip header size byte"),
whatever the width of the header-size varint.  The claimed
`header_size - k` holds only when the varint width `k` is 1. -/
theorem C3_serial_bytes_skip_one (buf : List Nat) (c : Cell)
    (hp : parseLeafTableCell buf = some c) :
    leafCellSerialBytesCovered buf = c.HeaderSize - 1 ∧ 1 ≤ c.HeaderSize := by
  simp only [parseLeafTableCell] at hp
  split at hp
  · split at hp
    · exact absurd hp (by simp)
    · split at hp
      · split at hp
        · rename_i hlen h0 hdata hov
          injection hp with hc
          subst hc
          simp only [leafCellSerialBytesCovered]
          constructor
          · rw [readVarints_consumes, List.length_drop, List.length_take,
              List.length_drop]
            omega
          · omega
        · exact absurd hp (by simp)
      · exact absurd hp (by simp)
  · exact absurd hp (by simp)

/-- A leaf-table cell whose record-header-size varint is two bytes wide:
payload length 130, row id 1, header length 130 (varint `[0x81, 0x02]`),
followed by 128 zero serial-type bytes and a zero overflow pointer. -/
def c3buf : List Nat := [129, 2, 1, 129, 2] ++ List.replicate 128 0 ++ [0, 0, 0, 0]

/-- C3 counterexample: on `c3buf` the header-size varint occupies `k = 2`
bytes and the decoded header size is 130, yet the serial-type varints
cover 129 bytes, not `130 - 2 = 128`: the parser skipped only one byte
and decoded the second byte of the header-size varint as a serial type. -/
theorem C3_counterexample :
    (parseLeafTableCell c3buf).isSome = true
      ∧ (leafVarint3 c3buf).1 = 130 ∧ (leafVarint3 c3buf).2 = 2
      ∧ leafCellSerialBytesCovered c3buf = 129
      ∧ 129 ≠ 130 - 2 := by decide

/-- A minimal leaf-table cell: payload length 2, row id 1, header
`[0x02, 0x0d]` (header size 2, one serial type 13 = empty text), no
payload, zero overflow pointer. -/
def c3wbuf : List Nat := [2, 1, 2, 13, 0, 0, 0, 0]

/-- The cell `parseLeafTableCell` produces from `c3wbuf`. -/
def c3wcell : Cell := ⟨1, 2, 0, 0, [⟨13, 13⟩], []⟩

/-- Witness for the amended C3 on a concrete cell. -/
theorem C3_serial_bytes_skip_one_witness :
    parseLeafTableCell c3wbuf = some c3wcell
      ∧ (leafCellSerialBytesCovered c3wbuf = c3wcell.HeaderSize - 1
          ∧ 1 ≤ c3wcell.HeaderSize) :=
  ⟨by decide, C3_serial_bytes_skip_one c3wbuf c3wcell (by decide)⟩

/-- C10: the stored record-header size is the decoded header-length
varint reduced modulo 256 (`HeaderSize` is a `uint8` field), and the
stored payload size is `payload_length - (header_length mod 256)` in
wrapping `uint64` arithmetic; consequently, whenever the header length is
256 or more (and the record is proper, `header_length ≤ payload_length <
2 ^ 64`), the parsed payload size differs from
`payload_length - header_size`. -/
theorem C10_payload_truncation (buf : List Nat) (c : Cell)
    (hp : parseLeafTableCell buf = some c) :
    c.HeaderSize = (leafVarint3 buf).1 % 256
      ∧ c.PayloadSize
          = ((leafVarint1 buf).1 + (2 ^ 64 - (leafVarint3 buf).1 % 256)) % 2 ^ 64
      ∧ (256 ≤ (leafVarint3 buf).1 → (leafVarint3 buf).1 ≤ (leafVarint1 buf).1 →
          (leafVarint1 buf).1 < 2 ^ 64 →
          c.PayloadSize ≠ (leafVarint1 buf).1 - (leafVarint3 buf).1) := by
  simp only [parseLeafTableCell] at hp
  split at hp
  · split at hp
    · exact absurd hp (by simp)
    · split at hp
      · split at hp
        · injection hp with hc
          subst hc
          refine ⟨rfl, rfl, ?_⟩
          intro h256 hle hlt
          simp only []
          omega
        · exact absurd hp (by simp)
      · exact absurd hp (by simp)
  · exact absurd hp (by simp)

/-- A leaf-table cell with record-header length 257: payload length 300,
row id 1, header-length varint `[0x82, 0x01]`; the stored header size
truncates to 1, so 299 payload bytes follow. -/
def c10buf : List Nat := [130, 44, 1, 130, 1] ++ List.replicate 298 0 ++ [0, 0, 0, 0]

/-- The cell `parseLeafTableCell` produces from `c10buf`: header size 1
(257 mod 256) and payload size 299 instead of `300 - 257 = 43`. -/
def c10cell : Cell := ⟨1, 1, 299, 0, [], 1 :: List.replicate 298 0⟩

/-- A cell holding one blob field (serial type 14: one-byte blob, mapped
by `newCellHeader` to descriptor type 12, size 1). -/
def c5blobCell : Cell := ⟨0, 2, 1, 0, [newCellHeader 14], [171]⟩

/-- A cell holding one NULL field (serial type 0, size 0). -/
def c5nullCell : Cell := ⟨0, 2, 0, 0, [newCellHeader 0], []⟩

/-- A cell holding one reserved-type-10 field (the descriptor's size is
the passed-through varint, 10, so ten data bytes keep the slice legal). -/
def c5i10Cell : Cell := ⟨0, 2, 10, 0, [newCellHeader 10], List.replicate 10 0⟩

/-- A cell holding one reserved-type-11 field. -/
def c5i11Cell : Cell := ⟨0, 2, 11, 0, [newCellHeader 11], List.replicate 11 0⟩

/-- A cell holding one text field (serial type 15: one-byte text). -/
def c5textCell : Cell := ⟨0, 2, 1, 0, [newCellHeader 15], [104]⟩

/-- C5 evaluation: `ReadDataFromHeaderIndex` fails not only on the
reserved serial types 10 and 11 but also on NULL (type 0) and on every
blob (descriptor type 12): the empty `case 12:` in the Go switch does
not fall through, so a blob field returns `unsupported format: 12`
instead of its `(N - 12) / 2` field bytes; text decodes fine. -/
theorem C5_code_bug_eval :
    ReadDataFromHeaderIndex c5blobCell 0 = .error "unsupported format: 12"
      ∧ ReadDataFromHeaderIndex c5nullCell 0 = .error "unsupported format: 0"
      ∧ ReadDataFromHeaderIndex c5i10Cell 0 = .error "unsupported format: 10"
      ∧ ReadDataFromHeaderIndex c5i11Cell 0 = .error "unsupported format: 11"
      ∧ ReadDataFromHeaderIndex c5textCell 0 = .ok (.str [104]) :=
  ⟨rfl, rfl, rfl, rfl, rfl⟩

/-- Witness for C10: at header length 257 the parsed payload size (299)
differs from `payload_length - header_length` (43). -/
theorem C10_payload_truncation_witness :
    parseLeafTableCell c10buf = some c10cell
      ∧ 256 ≤ (leafVarint3 c10buf).1
      ∧ (leafVarint3 c10buf).1 ≤ (leafVarint1 c10buf).1
      ∧ (leafVarint1 c10buf).1 < 2 ^ 64
      ∧ c10cell.PayloadSize ≠ (leafVarint1 c10buf).1 - (leafVarint3 c10buf).1 :=
  ⟨by decide, by decide, by decide, by decide,
    (C10_payload_truncation c10buf c10cell (by decide)).2.2
      (by decide) (by decide) (by decide)⟩

/-- A cell holding one serial-type-3 field (three bytes). -/
def mkCell3 (b0 b1 b2 : Nat) : Cell := ⟨0, 2, 3, 0, [newCellHeader 3], [b0, b1, b2]⟩

/-- A cell holding one serial-type-5 field (six bytes). -/
def mkCell5 (b0 b1 b2 b3 b4 b5 : Nat) : Cell :=
  ⟨0, 2, 6, 0, [newCellHeader 5], [b0, b1, b2, b3, b4, b5]⟩

theorem ReadData3_eval (b0 b1 b2 : Nat) :
    ReadDataFromHeaderIndex (mkCell3 b0 b1 b2) 0
      = .ok (.i64 (signed24 (raw24 b0 b1 b2))) := rfl

theorem ReadData5_eval (b0 b1 b2 b3 b4 b5 : Nat) :
    ReadDataFromHeaderIndex (mkCell5 b0 b1 b2 b3 b4 b5) 0
      = .ok (.i64 (signed48 (raw48 b0 b1 b2 b3 b4 b5))) := rfl

/-- C6 (amended): decoding a serial-type-3 (or 5) bit pattern with the
top bit set yields a negative signed 64-bit value whose bits above bit 23
(resp. 47) are all 1 — the value is `pattern - 2 ^ 24` (resp.
`pattern - 2 ^ 48`); decoding the same pattern with the top bit cleared
yields the nonnegative value of the cleared pattern itself (not, in
general, the magnitude of the negative result). -/
theorem C6_sign_extension (b0 b1 b2 d0 d1 d2 d3 d4 d5 : Nat)
    (hb0 : b0 < 256) (hb1 : b1 < 256) (hb2 : b2 < 256) (htop3 : 128 ≤ b0)
    (hd0 : d0 < 256) (hd1 : d1 < 256) (hd2 : d2 < 256) (hd3 : d3 < 256)
    (hd4 : d4 < 256) (hd5 : d5 < 256) (htop5 : 128 ≤ d0) :
    (ReadDataFromHeaderIndex (mkCell3 b0 b1 b2) 0
        = .ok (.i64 (raw24 b0 b1 b2 - 2 ^ 24))
      ∧ raw24 b0 b1 b2 - 2 ^ 24 < 0
      ∧ (raw24 b0 b1 b2 - 2 ^ 24 + 2 ^ 64).toNat / 2 ^ 24 = 2 ^ 40 - 1
      ∧ ReadDataFromHeaderIndex (mkCell3 (b0 - 128) b1 b2) 0
          = .ok (.i64 (raw24 (b0 - 128) b1 b2))
      ∧ 0 ≤ raw24 (b0 - 128) b1 b2)
    ∧ (ReadDataFromHeaderIndex (mkCell5 d0 d1 d2 d3 d4 d5) 0
        = .ok (.i64 (raw48 d0 d1 d2 d3 d4 d5 - 2 ^ 48))
      ∧ raw48 d0 d1 d2 d3 d4 d5 - 2 ^ 48 < 0
      ∧ (raw48 d0 d1 d2 d3 d4 d5 - 2 ^ 48 + 2 ^ 64).toNat / 2 ^ 48 = 2 ^ 16 - 1
      ∧ ReadDataFromHeaderIndex (mkCell5 (d0 - 128) d1 d2 d3 d4 d5) 0
          = .ok (.i64 (raw48 (d0 - 128) d1 d2 d3 d4 d5))
      ∧ 0 ≤ raw48 (d0 - 128) d1 d2 d3 d4 d5) := by
  have hset3 : 2 ^ 23 ≤ raw24 b0 b1 b2 := by unfold raw24; omega
  have hclr3 : ¬ 2 ^ 23 ≤ raw24 (b0 - 128) b1 b2 := by unfold raw24; omega
  have hset5 : 2 ^ 47 ≤ raw48 d0 d1 d2 d3 d4 d5 := by unfold raw48; omega
  have hclr5 : ¬ 2 ^ 47 ≤ raw48 (d0 - 128) d1 d2 d3 d4 d5 := by unfold raw48; omega
  refine ⟨⟨?_, ?_, ?_, ?_, ?_⟩, ?_, ?_, ?_, ?_, ?_⟩
  · rw [ReadData3_eval, signed24, if_pos hset3]
  · unfold raw24 at *; omega
  · unfold raw24 at *; omega
  · rw [ReadData3_eval, signed24, if_neg hclr3]
  · unfold raw24; omega
  · rw [ReadData5_eval, signed48, if_pos hset5]
  · unfold raw48 at *; omega
  · unfold raw48 at *; omega
  · rw [ReadData5_eval, signed48, if_neg hclr5]
  · unfold raw48; omega

/-- Witness for the amended C6 at the all-ones patterns. -/
theorem C6_sign_extension_witness :
    (255 < 256 ∧ 128 ≤ 255) ∧
      ((ReadDataFromHeaderIndex (mkCell3 255 255 255) 0
          = .ok (.i64 (raw24 255 255 255 - 2 ^ 24))
        ∧ raw24 255 255 255 - 2 ^ 24 < 0
        ∧ (raw24 255 255 255 - 2 ^ 24 + 2 ^ 64).toNat / 2 ^ 24 = 2 ^ 40 - 1
        ∧ ReadDataFromHeaderIndex (mkCell3 (255 - 128) 255 255) 0
            = .ok (.i64 (raw24 (255 - 128) 255 255))
        ∧ 0 ≤ raw24 (255 - 128) 255 255)
      ∧ (ReadDataFromHeaderIndex (mkCell5 255 255 255 255 255 255) 0
          = .ok (.i64 (raw48 255 255 255 255 255 255 - 2 ^ 48))
        ∧ raw48 255 255 255 255 255 255 - 2 ^ 48 < 0
        ∧ (raw48 255 255 255 255 255 255 - 2 ^ 48 + 2 ^ 64).toNat / 2 ^ 48
            = 2 ^ 16 - 1
        ∧ ReadDataFromHeaderIndex (mkCell5 (255 - 128) 255 255 255 255 255) 0
            = .ok (.i64 (raw48 (255 - 128) 255 255 255 255 255))
        ∧ 0 ≤ raw48 (255 - 128) 255 255 255 255 255)) :=
  ⟨⟨by norm_num, by norm_num⟩,
    C6_sign_extension 255 255 255 255 255 255 255 255 255
      (by norm_num) (by norm_num) (by norm_num) (by norm_num) (by norm_num)
      (by norm_num) (by norm_num) (by norm_num) (by norm_num) (by norm_num)
      (by norm_num)⟩

/-- The 16 magic bytes `"SQLite format 3\0"` (file.go,
`DatabaseHeaderString`). -/
def DatabaseHeaderStringBytes : List Nat :=
  [83, 81, 76, 105, 116, 101, 32, 102, 111, 114, 109, 97, 116, 32, 51, 0]

/-- `databaseHeader` (file.go), with every field as its raw big-endian
value. -/
structure DatabaseHeaderRec where
  HeaderString : List Nat
  PageSize : Nat
  WriteFileFormat : Nat
  ReadFileFormat : Nat
  ReservedPageSpace : Nat
  MaxEmbeddedPayloadFraction : Nat
  MinEmbeddedPayloadFraction : Nat
  LeafPayloadFraction : Nat
  FileChangeCounter : Nat
  DatabasePageSize : Nat
  FirstFreeListTrunk : Nat
  NumberOfFreeListPages : Nat
  SchemaCookie : Nat
  SchemaFormat : Nat
  PageCacheSize : Nat
  LargestPageInVMode : Nat
  TextEncoding : Nat
  UserVersionPragma : Nat
  IncrementalVMode : Nat
  ApplicationID : Nat
  ReservedSpace : Nat
  VersionValidfor : Nat
  SqliteVersion : Nat
deriving DecidableEq

/-- The byte slice `buf[a:b]`. -/
def slice (buf : List Nat) (a b : Nat) : List Nat := (buf.drop a).take (b - a)

/-- The 100-byte buffer `make([]byte, 100)` holds after a single
`f.Read`: the file's first bytes, zero-padded if the file is shorter. -/
def padTo (l : List Nat) (n : Nat) : List Nat :=
  l.take n ++ List.replicate (n - l.length) 0

/-- `newDatabaseHeader` (file.go): reads 100 bytes at offset 0 and
decodes every field in order, validating only the magic string, the
three payload fractions (64/32/32), `schema_format ∈ [1,4]` and
`text_encoding ∈ [1,3]` (whose error message says "schema format" — a
copy-paste in the source); every other field, including `PageSize`, is
captured without validation.  `ReservedSpace` is a `uint64` read from
the 20-byte slice `[72:92]`, so `binary.Read` fills it from the first 8
bytes. -/
def newDatabaseHeader (buf : List Nat) : Except String DatabaseHeaderRec :=
  let headerBuf := padTo buf 100
  if headerBuf.take 16 ≠ DatabaseHeaderStringBytes then
    .error "database string is invalid"
  else if beNat (slice headerBuf 21 22) ≠ 64 then
    .error "Maximum embedded payload fraction must be 64"
  else if beNat (slice headerBuf 22 23) ≠ 32 then
    .error "Minimum embedded payload fraction must be 32"
  else if beNat (slice headerBuf 23 24) ≠ 32 then
    .error "Leaf payload fraction must be 32"
  else if beNat (slice headerBuf 44 48) < 1 ∨ beNat (slice headerBuf 44 48) > 4 then
    .error "schema format must be between 1 and 4"
  else if beNat (slice headerBuf 56 60) < 1 ∨ beNat (slice headerBuf 56 60) > 3 then
    .error "schema format must be between 1 and 3"
  else
    .ok
      { HeaderString := headerBuf.take 16
        PageSize := beNat (slice headerBuf 16 18)
        WriteFileFormat := beNat (slice headerBuf 18 19)
        ReadFileFormat := beNat (slice headerBuf 19 20)
        ReservedPageSpace := beNat (slice headerBuf 20 21)
        MaxEmbeddedPayloadFraction := beNat (slice headerBuf 21 22)
        MinEmbeddedPayloadFraction := beNat (slice headerBuf 22 23)
        LeafPayloadFraction := beNat (slice headerBuf 23 24)
        FileChangeCounter := beNat (slice headerBuf 24 28)
        DatabasePageSize := beNat (slice headerBuf 28 32)
        FirstFreeListTrunk := beNat (slice headerBuf 32 36)
        NumberOfFreeListPages := beNat (slice headerBuf 36 40)
        SchemaCookie := beNat (slice headerBuf 40 44)
        SchemaFormat := beNat (slice headerBuf 44 48)
        PageCacheSize := beNat (slice headerBuf 48 52)
        LargestPageInVMode := beNat (slice headerBuf 52 56)
        TextEncoding := beNat (slice headerBuf 56 60)
        UserVersionPragma := beNat (slice headerBuf 60 64)
        IncrementalVMode := beNat (slice headerBuf 64 68)
        ApplicationID := beNat (slice headerBuf 68 72)
        ReservedSpace := beNat (slice headerBuf 72 80)
        VersionValidfor := beNat (slice headerBuf 92 96)
        SqliteVersion := beNat (slice headerBuf 96 100) }

theorem padTo_take (l : List Nat) (n : Nat) : padTo (l.take n) n = padTo l n := by
  unfold padTo
  rw [List.take_take, List.length_take]
  congr 2
  · omega
  · omega

theorem padTo_of_le (l : List Nat) (n : Nat) (h : n ≤ l.length) :
    padTo l n = l.take n := by
  unfold padTo
  rw [show n - l.length = 0 from by omega]
  simp

theorem slice_take (l : List Nat) (a b n : Nat) (hb : b ≤ n) :
    slice (l.take n) a b = slice l a b := by
  unfold slice
  rw [List.drop_take, List.take_take]
  congr 1
  omega

/-- C9: `newDatabaseHeader` depends only on the first 100 bytes of the
file, and succeeds exactly when the 16-byte magic equals
`"SQLite format 3\0"`, the three payload-fraction bytes are 64/32/32,
the schema format lies in `[1, 4]` and the text encoding in `[1, 3]`;
`PageSize` (and every other field) is captured raw, so any page-size
value is accepted. -/
theorem C9_header_validation (buf : List Nat) (hlen : 100 ≤ buf.length) :
    newDatabaseHeader buf = newDatabaseHeader (buf.take 100)
      ∧ ((∃ h, newDatabaseHeader buf = .ok h) ↔
          (buf.take 16 = DatabaseHeaderStringBytes
            ∧ beNat (slice buf 21 22) = 64
            ∧ beNat (slice buf 22 23) = 32
            ∧ beNat (slice buf 23 24) = 32
            ∧ 1 ≤ beNat (slice buf 44 48) ∧ beNat (slice buf 44 48) ≤ 4
            ∧ 1 ≤ beNat (slice buf 56 60) ∧ beNat (slice buf 56 60) ≤ 3))
      ∧ (∀ h, newDatabaseHeader buf = .ok h →
          h.PageSize = beNat (slice buf 16 18)) := by
  have hpad : padTo buf 100 = buf.take 100 := padTo_of_le buf 100 hlen
  refine ⟨by rw [newDatabaseHeader, newDatabaseHeader, padTo_take], ?_, ?_⟩
  · rw [newDatabaseHeader]
    simp only [hpad, slice_take buf 21 22 100 (by norm_num),
      slice_take buf 22 23 100 (by norm_num), slice_take buf 23 24 100 (by norm_num),
      slice_take buf 44 48 100 (by norm_num), slice_take buf 56 60 100 (by norm_num),
      List.take_take, show min 16 100 = 16 from by norm_num]
    constructor
    · intro ⟨h, hh⟩
      split at hh
      · exact absurd hh (by simp)
      · split at hh
        · exact absurd hh (by simp)
        · split at hh
          · exact absurd hh (by simp)
          · split at hh
            · exact absurd hh (by simp)
            · split at hh
              · exact absurd hh (by simp)
              · split at hh
                · exact absurd hh (by simp)
                · rename_i h1 h2 h3 h4 h5 h6
                  push_neg at h1 h2 h3 h4 h5 h6
                  exact ⟨h1, h2, h3, h4, by omega, by omega, by omega, by omega⟩
    · intro ⟨h1, h2, h3, h4, h5, h6, h7, h8⟩
      rw [if_neg (by simpa using h1), if_neg (by simpa using h2),
        if_neg (by simpa using h3), if_neg (by simpa using h4),
        if_neg (by omega), if_neg (by omega)]
      exact ⟨_, rfl⟩
  · intro h hh
    rw [newDatabaseHeader] at hh
    simp only [hpad] at hh
    split at hh
    · exact absurd hh (by simp)
    · split at hh
      · exact absurd hh (by simp)
      · split at hh
        · exact absurd hh (by simp)
        · split at hh
          · exact absurd hh (by simp)
          · split at hh
            · exact absurd hh (by simp)
            · split at hh
              · exact absurd hh (by simp)
              · injection hh with hrec
                subst hrec
                simp only []
                exact slice_take buf 16 18 100 (by norm_num) ▸ rfl

/-- A valid 100-byte header: page size 4096, fractions 64/32/32, schema
format 1, text encoding 1, everything else zero. -/
def c9buf : List Nat :=
  DatabaseHeaderStringBytes ++ [16, 0, 1, 1, 0, 64, 32, 32]
    ++ List.replicate 20 0 ++ [0, 0, 0, 1] ++ List.replicate 8 0
    ++ [0, 0, 0, 1] ++ List.replicate 40 0

/-- Witness for C9 on a concrete valid header buffer. -/
theorem C9_header_validation_witness :
    100 ≤ c9buf.length
      ∧ (newDatabaseHeader c9buf = newDatabaseHeader (c9buf.take 100)
        ∧ ((∃ h, newDatabaseHeader c9buf = .ok h) ↔
            (c9buf.take 16 = DatabaseHeaderStringBytes
              ∧ beNat (slice c9buf 21 22) = 64
              ∧ beNat (slice c9buf 22 23) = 32
              ∧ beNat (slice c9buf 23 24) = 32
              ∧ 1 ≤ beNat (slice c9buf 44 48) ∧ beNat (slice c9buf 44 48) ≤ 4
              ∧ 1 ≤ beNat (slice c9buf 56 60) ∧ beNat (slice c9buf 56 60) ≤ 3))
        ∧ (∀ h, newDatabaseHeader c9buf = .ok h →
            h.PageSize = beNat (slice c9buf 16 18))) :=
  ⟨by decide, C9_header_validation c9buf (by decide)⟩

/-- C6 counterexample: the pattern `0xFFFFFF` (top bit set) decodes to
`-1`; the same pattern with the top bit cleared, `0x7FFFFF`, decodes to
`8388607`, which is not the magnitude of `-1` — so "clearing the top bit
yields the positive value of the same magnitude" fails as stated. -/
theorem C6_counterexample :
    ReadDataFromHeaderIndex (mkCell3 255 255 255) 0 = .ok (.i64 (-1))
      ∧ ReadDataFromHeaderIndex (mkCell3 127 255 255) 0 = .ok (.i64 8388607)
      ∧ (8388607 : Int) ≠ (((-1 : Int).natAbs : Nat) : Int) :=
  ⟨rfl, rfl, by decide⟩

/-- A leaf-table cell as the query layer (query.go) sees it: the row id
and the string renderings of its record fields.  The Go code renders a
field via `string(c.ReadDataFromHeaderIndex(idx))`; that single-return
renderer lives in a revision of cell.go outside `src/`, so the rendered
strings are carried directly (modelled from the spec: numeric fields
render via decimal, text verbatim, NULL as the empty string). -/
structure LeafRow where
  RowID : Int
  fields : List String
deriving DecidableEq

/-- A table B-tree with page-number indirection resolved: a leaf page
holds its cells in cell-pointer order; an interior page holds
`(left child, row id)` cells in order plus the page header's right-most
child.  (In the Go code children are reached through
`newPageFromNumber`; a well-formed B-tree's pointers are nonzero and
acyclic, which the inductive makes intrinsic.) -/
inductive BTreePage where
  | leaf (cells : List LeafRow)
  | interior (cells : List (BTreePage × Int)) (rightmost : BTreePage)

/-- `selectCtx` (query.go) minus the table list, which `HandleSelect`
iterates separately. -/
structure SelectCtx where
  Identifiers : List String
  Constraint : List (String × String)
  IsCount : Bool
  Limit : Nat

/-- The mutable parts of `queryContext` (query.go): the row counter and
the accumulated row strings, plus a ghost `visited` trace recording the
row id of every leaf cell the scanner processes, in processing order. -/
structure QueryCtx where
  count : Nat
  data : List String
  visited : List Int
deriving DecidableEq

/-- `string(c.ReadDataFromHeaderIndex(idx))` at the query layer: the
rendered field string at a column ordinal (out-of-range reads arise only
through malformed column maps and render empty). -/
def renderField (c : LeafRow) (idx : Nat) : String := c.fields.getD idx ""

/-- `strings.ToLower` restricted to ASCII (all identifiers and literals
in scope are ASCII). -/
def goToLower (s : String) : String := ⟨s.data.map Char.toLower⟩

/-- `handleQueryConstraint` (query.go): checks each `(column, literal)`
pair in order against the cell, caching rendered values in `col`; an
unknown column is an error, a mismatch a clean `false`.  A NULL `id`
column substitutes the row id before caching and comparing.  (Diagnostic
texts are abbreviated.) -/
def handleQueryConstraintGo (cmap : List (String × Nat)) (c : LeafRow) :
    List (String × String) → List (String × String) →
      Except String (Bool × List (String × String))
  | [], col => .ok (true, col)
  | (k, v) :: rest, col =>
    match cmap.lookup k with
    | none => .error ("constraint " ++ k ++ " not found")
    | some idx =>
      let value0 := renderField c idx
      let value := if k = "id" ∧ value0 = "" then toString c.RowID else value0
      if goToLower value ≠ v then .ok (false, col ++ [(k, value)])
      else handleQueryConstraintGo cmap c rest (col ++ [(k, value)])

/-- `handleQueryIdentifers` (query.go): renders each requested
identifier; in count mode every identifier contributes an empty string;
otherwise the constraint cache is consulted first, a NULL `id` renders
as the row id, and empty values are dropped from the projection. -/
def handleQueryIdentifersGo (cmap : List (String × Nat)) (c : LeafRow) (isCount : Bool)
    (col : List (String × String)) : List String → Except String (List String)
  | [] => .ok []
  | k :: rest =>
    if isCount then
      match handleQueryIdentifersGo cmap c isCount col rest with
      | .error e => .error e
      | .ok strs => .ok ("" :: strs)
    else
      match
        (match col.lookup k with
          | some v => Except.ok v
          | none =>
            match cmap.lookup k with
            | none => Except.error (k ++ " not found")
            | some idx => Except.ok (renderField c idx)) with
      | .error e => .error e
      | .ok value0 =>
        let value := if value0 = "" ∧ k = "id" then toString c.RowID else value0
        match handleQueryIdentifersGo cmap c isCount col rest with
        | .error e => .error e
        | .ok strs => .ok (if value ≠ "" then value :: strs else strs)

/-- `handleQueryLeaf` (query.go): walks the leaf's cells in cell-pointer
order; once a nonzero `LIMIT` is reached the leaf returns early;
otherwise each cell is filtered by the constraints and projected, and a
nonempty projection appends a `|`-joined row (column mode) and bumps the
counter. -/
def handleQueryLeafGo (cmap : List (String × Nat)) (q : SelectCtx) :
    List LeafRow → QueryCtx → Except String QueryCtx
  | [], ctx => .ok ctx
  | c :: rest, ctx =>
    if q.Limit > 0 ∧ ctx.count ≥ q.Limit then .ok ctx
    else
      let ctx1 := { ctx with visited := ctx.visited ++ [c.RowID] }
      match handleQueryConstraintGo cmap c q.Constraint [] with
      | .error e => .error e
      | .ok (pass, col) =>
        if pass = false then handleQueryLeafGo cmap q rest ctx1
        else
          match handleQueryIdentifersGo cmap c q.IsCount col q.Identifiers with
          | .error e => .error e
          | .ok strs =>
            if strs ≠ [] then
              if q.IsCount then
                handleQueryLeafGo cmap q rest { ctx1 with count := ctx1.count + 1 }
              else
                handleQueryLeafGo cmap q rest
                  { ctx1 with
                    data := ctx1.data ++ [String.intercalate "|" strs]
                    count := ctx1.count + 1 }
            else handleQueryLeafGo cmap q rest ctx1

mutual

/-- `queryTable` (query.go): a leaf page is scanned by
`handleQueryLeaf`; an interior page recurses into every cell's left
child in cell order and then into the page header's right-most child;
errors abort the whole traversal. -/
def queryTable (cmap : List (String × Nat)) (q : SelectCtx) :
    BTreePage → QueryCtx → Except String QueryCtx
  | .leaf cells, ctx => handleQueryLeafGo cmap q cells ctx
  | .interior cells rightmost, ctx =>
    match queryTableList cmap q cells ctx with
    | .error e => .error e
    | .ok ctx2 => queryTable cmap q rightmost ctx2

/-- The `for _, c := range p.Cells` loop of `queryTable` over an
interior page's cells. -/
def queryTableList (cmap : List (String × Nat)) (q : SelectCtx) :
    List (BTreePage × Int) → QueryCtx → Except String QueryCtx
  | [], ctx => .ok ctx
  | (child, _) :: rest, ctx =>
    match queryTable cmap q child ctx with
    | .error e => .error e
    | .ok ctx2 => queryTableList cmap q rest ctx2

end

mutual

/-- The leaf cells of a B-tree in traversal order: every interior cell's
left subtree before the next cell, the right-most subtree last. -/
def inorderCells : BTreePage → List LeafRow
  | .leaf cells => cells
  | .interior cells rightmost => inorderCellsList cells ++ inorderCells rightmost

/-- `inorderCells` over an interior page's cell list. -/
def inorderCellsList : List (BTreePage × Int) → List LeafRow
  | [] => []
  | (child, _) :: rest => inorderCells child ++ inorderCellsList rest

end

/-- The row ids of a B-tree's leaf cells in traversal order — the
in-order walk. -/
def inorderRowIDs (p : BTreePage) : List Int := (inorderCells p).map LeafRow.RowID

mutual

/-- Well-formedness of a table B-tree: each leaf's row ids are
non-decreasing, and each interior cell's key bounds its left subtree
from above and everything to its right from below (row ids along any
interior chain are monotonically non-decreasing). -/
def WFB : BTreePage → Prop
  | .leaf cells => (cells.map LeafRow.RowID).Pairwise (· ≤ ·)
  | .interior cells rightmost => WFcells cells rightmost ∧ WFB rightmost

/-- `WFB` over an interior page's cell list. -/
def WFcells : List (BTreePage × Int) → BTreePage → Prop
  | [], _ => True
  | (child, key) :: rest, rightmost =>
    WFB child ∧ (∀ r ∈ inorderRowIDs child, r ≤ key)
      ∧ (∀ r ∈ inorderRowIDs (.interior rest rightmost), key ≤ r)
      ∧ WFcells rest rightmost

end

/-- Whether a cell passes the constraints and projects a nonempty string
list — exactly the condition under which `handleQueryLeaf` counts it. -/
def cellKeptB (cmap : List (String × Nat)) (q : SelectCtx) (c : LeafRow) : Bool :=
  match handleQueryConstraintGo cmap c q.Constraint [] with
  | .error _ => false
  | .ok (pass, col) =>
    if pass then
      match handleQueryIdentifersGo cmap c q.IsCount col q.Identifiers with
      | .error _ => false
      | .ok strs => decide (strs ≠ [])
    else false

/-- Whether a cell passes the constraints (independent of the
projection and of count mode). -/
def passB (cmap : List (String × Nat)) (constraint : List (String × String))
    (c : LeafRow) : Bool :=
  match handleQueryConstraintGo cmap c constraint [] with
  | .error _ => false
  | .ok (pass, _) => pass

/-- With no `LIMIT`, scanning a concatenation of cell lists is scanning
the first, then — unless it errored — the second from where it left
off. -/
theorem handleQueryLeafGo_append (cmap : List (String × Nat)) (q : SelectCtx)
    (hlim : q.Limit = 0) (l1 l2 : List LeafRow) (ctx : QueryCtx) :
    handleQueryLeafGo cmap q (l1 ++ l2) ctx
      = match handleQueryLeafGo cmap q l1 ctx with
        | .error e => .error e
        | .ok ctx2 => handleQueryLeafGo cmap q l2 ctx2 := by
  induction l1 generalizing ctx with
  | nil => simp [handleQueryLeafGo]
  | cons c rest ih =>
    simp only [List.cons_append, handleQueryLeafGo, hlim, gt_iff_lt,
      lt_self_iff_false, false_and, if_false]
    cases hcon : handleQueryConstraintGo cmap c q.Constraint [] with
    | error e => simp
    | ok pc =>
      obtain ⟨pass, col⟩ := pc
      simp only []
      split
      · exact ih _
      · cases hid : handleQueryIdentifersGo cmap c q.IsCount col q.Identifiers with
        | error e => simp
        | ok strs =>
          simp only []
          split
          · split
            · exact ih _
            · exact ih _
          · exact ih _

/-- With no `LIMIT`, a successful leaf scan visits every cell in order,
counts exactly the kept cells, and appends one row per kept cell in
column mode (none in count mode). -/
theorem handleQueryLeafGo_spec (cmap : List (String × Nat)) (q : SelectCtx)
    (hlim : q.Limit = 0) :
    ∀ (cells : List LeafRow) (ctx ctx' : QueryCtx),
      handleQueryLeafGo cmap q cells ctx = .ok ctx' →
      ctx'.visited = ctx.visited ++ cells.map LeafRow.RowID
        ∧ ctx'.count = ctx.count + cells.countP (fun c => cellKeptB cmap q c)
        ∧ ctx'.data.length = ctx.data.length
            + (if q.IsCount then 0 else cells.countP (fun c => cellKeptB cmap q c)) := by
  intro cells
  induction cells with
  | nil =>
    intro ctx ctx' hp
    simp only [handleQueryLeafGo] at hp
    injection hp with hp
    subst hp
    simp
  | cons c rest ih =>
    intro ctx ctx' hp
    simp only [handleQueryLeafGo, hlim, gt_iff_lt, lt_self_iff_false, false_and,
      if_false] at hp
    rw [List.countP_cons]
    cases hcon : handleQueryConstraintGo cmap c q.Constraint [] with
    | error e => rw [hcon] at hp; exact absurd hp (by simp)
    | ok pc =>
      obtain ⟨pass, col⟩ := pc
      rw [hcon] at hp
      simp only [] at hp
      by_cases hpass : pass = false
      · rw [if_pos hpass] at hp
        have hkB : cellKeptB cmap q c = false := by
          subst hpass
          simp [cellKeptB, hcon]
        obtain ⟨h1, h2, h3⟩ := ih _ _ hp
        rw [hkB]
        refine ⟨by simpa using h1, by rw [h2]; simp, ?_⟩
        rw [h3]
        split <;> simp
      · rw [if_neg hpass] at hp
        have hpt : pass = true := by
          cases pass
          · exact absurd rfl hpass
          · rfl
        subst hpt
        cases hid : handleQueryIdentifersGo cmap c q.IsCount col q.Identifiers with
        | error e => rw [hid] at hp; exact absurd hp (by simp)
        | ok strs =>
          rw [hid] at hp
          simp only [] at hp
          by_cases hs : strs = []
          · have hkB : cellKeptB cmap q c = false := by
              simp [cellKeptB, hcon, hid, hs]
            subst hs
            simp only [ne_eq, not_true_eq_false, if_false] at hp
            obtain ⟨h1, h2, h3⟩ := ih _ _ hp
            rw [hkB]
            refine ⟨by simpa using h1, by rw [h2]; simp, ?_⟩
            rw [h3]
            split <;> simp
          · have hkB : cellKeptB cmap q c = true := by
              simp [cellKeptB, hcon, hid, hs]
            rw [if_pos (by simpa using hs)] at hp
            rw [hkB]
            by_cases hc2 : q.IsCount
            · rw [if_pos hc2] at hp
              obtain ⟨h1, h2, h3⟩ := ih _ _ hp
              rw [if_pos hc2] at h3 ⊢
              refine ⟨by simpa using h1, ?_, by simpa using h3⟩
              rw [h2]
              simp
              omega
            · rw [if_neg hc2] at hp
              obtain ⟨h1, h2, h3⟩ := ih _ _ hp
              rw [if_neg hc2] at h3 ⊢
              refine ⟨by simpa using h1, ?_, ?_⟩
              · rw [h2]
                simp
                omega
              · rw [h3]
                simp
                omega

mutual

/-- With no `LIMIT`, `queryTable` is the leaf scan of the in-order cell
sequence: every interior cell's left child is visited before the next
cell and the right-most child last. -/
theorem queryTable_flat (cmap : List (String × Nat)) (q : SelectCtx)
    (hlim : q.Limit = 0) (p : BTreePage) (ctx : QueryCtx) :
    queryTable cmap q p ctx = handleQueryLeafGo cmap q (inorderCells p) ctx := by
  cases p with
  | leaf cells => rfl
  | interior cells rightmost =>
    show (match queryTableList cmap q cells ctx with
        | .error e => .error e
        | .ok ctx2 => queryTable cmap q rightmost ctx2)
      = handleQueryLeafGo cmap q (inorderCells (.interior cells rightmost)) ctx
    rw [queryTableList_flat cmap q hlim cells ctx]
    show _ = handleQueryLeafGo cmap q (inorderCellsList cells ++ inorderCells rightmost) ctx
    rw [handleQueryLeafGo_append cmap q hlim]
    cases handleQueryLeafGo cmap q (inorderCellsList cells) ctx with
    | error e => rfl
    | ok ctx2 => exact queryTable_flat cmap q hlim rightmost ctx2

/-- `queryTable_flat` for the cell list of an interior page. -/
theorem queryTableList_flat (cmap : List (String × Nat)) (q : SelectCtx)
    (hlim : q.Limit = 0) (cells : List (BTreePage × Int)) (ctx : QueryCtx) :
    queryTableList cmap q cells ctx
      = handleQueryLeafGo cmap q (inorderCellsList cells) ctx := by
  cases cells with
  | nil => rfl
  | cons hd rest =>
    obtain ⟨child, key⟩ := hd
    show (match queryTable cmap q child ctx with
        | .error e => .error e
        | .ok ctx2 => queryTableList cmap q rest ctx2)
      = handleQueryLeafGo cmap q (inorderCells child ++ inorderCellsList rest) ctx
    rw [queryTable_flat cmap q hlim child ctx, handleQueryLeafGo_append cmap q hlim]
    cases handleQueryLeafGo cmap q (inorderCells child) ctx with
    | error e => rfl
    | ok ctx2 => exact queryTableList_flat cmap q hlim rest ctx2

end

mutual

/-- A well-formed B-tree's in-order row ids are non-decreasing. -/
theorem WFB_pairwise (p : BTreePage) (h : WFB p) :
    (inorderRowIDs p).Pairwise (· ≤ ·) :=
  match p, h with
  | .leaf _, h => h
  | .interior cells rightmost, ⟨hc, hR⟩ => WFcells_pairwise cells rightmost hc hR
termination_by sizeOf p

/-- `WFB_pairwise` for the cell list of an interior page. -/
theorem WFcells_pairwise (cells : List (BTreePage × Int)) (rightmost : BTreePage)
    (h : WFcells cells rightmost) (hR : WFB rightmost) :
    (inorderRowIDs (.interior cells rightmost)).Pairwise (· ≤ ·) :=
  match cells, h with
  | [], _ => by
    show ((inorderCellsList [] ++ inorderCells rightmost).map LeafRow.RowID).Pairwise _
    simpa [inorderCellsList] using WFB_pairwise rightmost hR
  | (child, key) :: rest, ⟨h1, h2, h3, h4⟩ => by
    have hchild := WFB_pairwise child h1
    have hrest := WFcells_pairwise rest rightmost h4 hR
    show (((inorderCells child ++ inorderCellsList rest) ++ inorderCells rightmost).map
      LeafRow.RowID).Pairwise (· ≤ ·)
    rw [List.append_assoc, List.map_append, List.pairwise_append]
    refine ⟨hchild, hrest, ?_⟩
    intro a ha b hb
    have hak : a ≤ key := h2 a ha
    have hkb : key ≤ b := h3 b (by simpa [inorderRowIDs, inorderCells] using hb)
    omega
termination_by sizeOf cells + sizeOf rightmost

end

/-- Non-decreasing plus no duplicates gives strictly increasing. -/
theorem pairwise_lt_of_le_nodup (l : List Int) (hle : l.Pairwise (· ≤ ·))
    (hnd : l.Nodup) : l.Pairwise (· < ·) :=
  (hle.and hnd).imp (fun hab => lt_of_le_of_ne hab.1 hab.2)

/-- C4: on a well-formed table B-tree (row ids unique, non-decreasing
along interior chains) a full scan (`LIMIT 0`) by `queryTable` processes
the leaf cells exactly in the in-order walk — each interior cell's left
child before the next cell, the right-most child last — so the visited
row-id sequence is the in-order walk, which is strictly ascending. -/
theorem C4_scan_inorder (cmap : List (String × Nat)) (q : SelectCtx) (p : BTreePage)
    (ctx' : QueryCtx) (hlim : q.Limit = 0) (hwf : WFB p)
    (hnd : (inorderRowIDs p).Nodup)
    (hrun : queryTable cmap q p ⟨0, [], []⟩ = .ok ctx') :
    ctx'.visited = inorderRowIDs p ∧ (inorderRowIDs p).Pairwise (· < ·) := by
  rw [queryTable_flat cmap q hlim] at hrun
  obtain ⟨h1, _, _⟩ := handleQueryLeafGo_spec cmap q hlim (inorderCells p) _ _ hrun
  exact ⟨by simpa [inorderRowIDs] using h1,
    pairwise_lt_of_le_nodup _ (WFB_pairwise p hwf) hnd⟩

/-- In count mode (`IsCount = true`) `handleQueryIdentifers` returns one
empty string per identifier and never fails. -/
theorem identifers_count_mode (cmap : List (String × Nat)) (c : LeafRow)
    (col : List (String × String)) (idents : List String) :
    handleQueryIdentifersGo cmap c true col idents
      = .ok (List.replicate idents.length "") := by
  induction idents with
  | nil => rfl
  | cons k rest ih => simp [handleQueryIdentifersGo, ih, List.replicate_succ]

/-- In count mode with a nonempty identifier list (`count(*)` is one
identifier), a cell is counted exactly when it passes the constraints. -/
theorem cellKeptB_count_mode (cmap : List (String × Nat))
    (constraint : List (String × String)) (idents : List String) (c : LeafRow)
    (hne : idents ≠ []) :
    cellKeptB cmap ⟨idents, constraint, true, 0⟩ c = passB cmap constraint c := by
  unfold cellKeptB passB
  cases hcon : handleQueryConstraintGo cmap c constraint [] with
  | error e => rfl
  | ok pc =>
    obtain ⟨pass, col⟩ := pc
    cases pass
    · simp
    · simp only [if_true]
      rw [identifers_count_mode]
      simp only []
      simp [hne]

/-- A kept cell passes the constraints. -/
theorem cellKeptB_imp_passB (cmap : List (String × Nat)) (q : SelectCtx)
    (c : LeafRow) (h : cellKeptB cmap q c = true) :
    passB cmap q.Constraint c = true := by
  unfold cellKeptB at h
  unfold passB
  cases hcon : handleQueryConstraintGo cmap c q.Constraint [] with
  | error e => rw [hcon] at h; exact absurd h (by simp)
  | ok pc =>
    obtain ⟨pass, col⟩ := pc
    rw [hcon] at h
    cases pass
    · exact absurd h (by simp)
    · rfl

/-- C7 (amended): against the same tree, column map and predicates (and
ignoring `LIMIT`, i.e. with `LIMIT 0`), the `COUNT(*)` form counts
exactly the predicate-passing cells, while the column-list form emits
one row line per passing cell whose projection renders at least one
nonempty string; the two agree whenever every passing cell projects a
nonempty value — but not in general, since a passing row whose selected
columns all render empty is counted yet emits no line. -/
theorem C7_count_vs_rows (cmap : List (String × Nat)) (p : BTreePage)
    (constraint : List (String × String)) (idents : List String)
    (ctxN ctxC : QueryCtx)
    (hN : queryTable cmap ⟨["count(*)"], constraint, true, 0⟩ p ⟨0, [], []⟩ = .ok ctxN)
    (hC : queryTable cmap ⟨idents, constraint, false, 0⟩ p ⟨0, [], []⟩ = .ok ctxC) :
    ctxN.count = (inorderCells p).countP (fun c => passB cmap constraint c)
      ∧ ctxC.data.length = (inorderCells p).countP
          (fun c => cellKeptB cmap ⟨idents, constraint, false, 0⟩ c)
      ∧ ((∀ c ∈ inorderCells p, passB cmap constraint c = true →
            cellKeptB cmap ⟨idents, constraint, false, 0⟩ c = true) →
          ctxN.count = ctxC.data.length) := by
  rw [queryTable_flat cmap _ rfl] at hN hC
  obtain ⟨_, hc2, _⟩ := handleQueryLeafGo_spec cmap _ rfl (inorderCells p) _ _ hN
  obtain ⟨_, _, hd3⟩ := handleQueryLeafGo_spec cmap _ rfl (inorderCells p) _ _ hC
  have hcnteq : (inorderCells p).countP
        (fun c => cellKeptB cmap ⟨["count(*)"], constraint, true, 0⟩ c)
      = (inorderCells p).countP (fun c => passB cmap constraint c) := by
    apply List.countP_congr
    intro c _
    rw [cellKeptB_count_mode cmap constraint ["count(*)"] c (by simp)]
  have hcountN : ctxN.count
      = (inorderCells p).countP (fun c => passB cmap constraint c) := by
    rw [← hcnteq]
    simpa using hc2
  have hlenC : ctxC.data.length = (inorderCells p).countP
      (fun c => cellKeptB cmap ⟨idents, constraint, false, 0⟩ c) := by
    simpa using hd3
  refine ⟨hcountN, hlenC, ?_⟩
  intro himp
  rw [hcountN, hlenC]
  apply List.countP_congr
  intro c hc
  constructor
  · exact himp c hc
  · exact cellKeptB_imp_passB cmap ⟨idents, constraint, false, 0⟩ c

/-- A one-row table whose only field renders as the empty string. -/
def c7tree : BTreePage := .leaf [⟨1, [""]⟩]

/-- Column map for `c7tree`: one column `name` at ordinal 0. -/
def c7cmap : List (String × Nat) := [("name", 0)]

/-- C7 counterexample: on a single-row table whose `name` field is the
empty string, `SELECT COUNT(*)` emits 1 while `SELECT name` emits 0 row
lines (the empty projection is dropped), with identical (empty)
predicates and no `LIMIT`. -/
theorem C7_counterexample :
    queryTable c7cmap ⟨["count(*)"], [], true, 0⟩ c7tree ⟨0, [], []⟩
        = .ok ⟨1, [], [1]⟩
      ∧ queryTable c7cmap ⟨["name"], [], false, 0⟩ c7tree ⟨0, [], []⟩
        = .ok ⟨0, [], [1]⟩
      ∧ (1 : Nat) ≠ (0 : Nat) :=
  ⟨rfl, rfl, by decide⟩

/-- A one-row table whose `name` field renders nonempty. -/
def c7wtree : BTreePage := .leaf [⟨1, ["a"]⟩]

/-- Witness for the amended C7 on `c7wtree`: both forms agree (1 row). -/
theorem C7_count_vs_rows_witness :
    queryTable c7cmap ⟨["count(*)"], [], true, 0⟩ c7wtree ⟨0, [], []⟩
        = .ok ⟨1, [], [1]⟩
      ∧ ((⟨1, [], [1]⟩ : QueryCtx).count
            = (inorderCells c7wtree).countP (fun c => passB c7cmap [] c)
        ∧ (⟨1, ["a"], [1]⟩ : QueryCtx).data.length
            = (inorderCells c7wtree).countP
                (fun c => cellKeptB c7cmap ⟨["name"], [], false, 0⟩ c)
        ∧ ((∀ c ∈ inorderCells c7wtree, passB c7cmap [] c = true →
              cellKeptB c7cmap ⟨["name"], [], false, 0⟩ c = true) →
            (⟨1, [], [1]⟩ : QueryCtx).count
              = (⟨1, ["a"], [1]⟩ : QueryCtx).data.length)) :=
  ⟨rfl, C7_count_vs_rows c7cmap c7wtree [] ["name"] ⟨1, [], [1]⟩ ⟨1, ["a"], [1]⟩
    rfl rfl⟩

/-- The outcome of looking a table name up in the schema map and
resolving its root page (`d.Tables[tableName]` and
`rootCell.RootPage()` in `HandleSelect`). -/
inductive TableLookup where
  | missing
  | rootErr
  | found (cmap : List (String × Nat)) (tree : BTreePage)

/-- One line of `HandleSelect`'s stdout: a per-table diagnostic, a
traversal error message, a `COUNT(*)` integer, or the joined row
block. -/
inductive OutEvent where
  | diagNoRootCell (table : String)
  | diagNoRootPage (table : String)
  | errMsg (e : String)
  | countOut (n : Nat)
  | rowsOut (rows : List String)

/-- `HandleSelect` (query.go): for each table in order, a missing schema
cell or an unresolvable root page prints a diagnostic and `continue`s;
a `queryTable` error prints the error and `return`s — dropping every
remaining table; otherwise the count or the accumulated rows are
printed and the loop continues. -/
def HandleSelect (db : String → TableLookup) (q : SelectCtx) :
    List String → List OutEvent
  | [] => []
  | t :: rest =>
    match db t with
    | .missing => .diagNoRootCell t :: HandleSelect db q rest
    | .rootErr => .diagNoRootPage t :: HandleSelect db q rest
    | .found cmap tree =>
      match queryTable cmap q tree ⟨0, [], []⟩ with
      | .error e => [.errMsg e]
      | .ok ctx =>
        (if q.IsCount then .countOut ctx.count else .rowsOut ctx.data)
          :: HandleSelect db q rest

/-- C8 (amended): a missing table or an unresolvable root page prints a
diagnostic and the remaining tables are still processed; but an error
during traversal (`queryTable`) prints the error and aborts the whole
statement, skipping every remaining table. -/
theorem C8_per_table_errors (db : String → TableLookup) (q : SelectCtx)
    (t : String) (rest : List String) :
    (db t = .missing →
        HandleSelect db q (t :: rest) = .diagNoRootCell t :: HandleSelect db q rest)
      ∧ (db t = .rootErr →
        HandleSelect db q (t :: rest) = .diagNoRootPage t :: HandleSelect db q rest)
      ∧ (∀ cmap tree e, db t = .found cmap tree →
          queryTable cmap q tree ⟨0, [], []⟩ = .error e →
          HandleSelect db q (t :: rest) = [.errMsg e]) := by
  refine ⟨?_, ?_, ?_⟩
  · intro h
    simp [HandleSelect, h]
  · intro h
    simp [HandleSelect, h]
  · intro cmap tree e h1 h2
    simp [HandleSelect, h1, h2]

/-- A database with two tables: `t1` has an empty column map (so the
`WHERE x = 'v'` constraint fails with an unknown-column error during its
traversal) and `t2` has column `x` with a matching row. -/
def c8db : String → TableLookup := fun t =>
  if t = "t1" then .found [] (.leaf [⟨1, []⟩])
  else .found [("x", 0)] (.leaf [⟨2, ["v"]⟩])

/-- C8 counterexample: `SELECT x FROM t1, t2 WHERE x = 'v'` fails during
`t1`'s traversal, and the executor emits only the error — `t2`, which on
its own would produce a row, is never processed, contradicting "still
processing every remaining table". -/
theorem C8_counterexample :
    HandleSelect c8db ⟨["x"], [("x", "v")], false, 0⟩ ["t1", "t2"]
        = [.errMsg "constraint x not found"]
      ∧ HandleSelect c8db ⟨["x"], [("x", "v")], false, 0⟩ ["t2"]
        = [.rowsOut ["v"]] :=
  ⟨rfl, rfl⟩

/-- A database exercising all three per-table outcomes: `m` is missing,
`r` has an unresolvable root page, anything else resolves to a one-row
table with an empty column map. -/
def c8wdb : String → TableLookup := fun t =>
  if t = "m" then .missing
  else if t = "r" then .rootErr
  else .found [] (.leaf [⟨1, []⟩])

/-- Witness for the amended C8, exercising the diagnostic-and-continue
cases and the error-and-abort case. -/
theorem C8_per_table_errors_witness :
    (c8wdb "m" = .missing
      ∧ HandleSelect c8wdb ⟨["x"], [("q", "1")], false, 0⟩ ["m", "z"]
          = .diagNoRootCell "m"
              :: HandleSelect c8wdb ⟨["x"], [("q", "1")], false, 0⟩ ["z"])
      ∧ (c8wdb "r" = .rootErr
        ∧ HandleSelect c8wdb ⟨["x"], [("q", "1")], false, 0⟩ ["r", "z"]
            = .diagNoRootPage "r"
                :: HandleSelect c8wdb ⟨["x"], [("q", "1")], false, 0⟩ ["z"])
      ∧ (c8wdb "t" = .found [] (.leaf [⟨1, []⟩])
        ∧ queryTable [] ⟨["x"], [("q", "1")], false, 0⟩ (.leaf [⟨1, []⟩]) ⟨0, [], []⟩
            = .error "constraint q not found"
        ∧ HandleSelect c8wdb ⟨["x"], [("q", "1")], false, 0⟩ ["t", "z"]
            = [.errMsg "constraint q not found"]) :=
  ⟨⟨rfl, (C8_per_table_errors c8wdb ⟨["x"], [("q", "1")], false, 0⟩ "m" ["z"]).1 rfl⟩,
    ⟨rfl, (C8_per_table_errors c8wdb ⟨["x"], [("q", "1")], false, 0⟩ "r" ["z"]).2.1 rfl⟩,
    ⟨rfl, rfl,
      (C8_per_table_errors c8wdb ⟨["x"], [("q", "1")], false, 0⟩ "t" ["z"]).2.2
        [] (.leaf [⟨1, []⟩]) "constraint q not found" rfl rfl⟩⟩

/-- A small well-formed two-level table B-tree. -/
def c4tree : BTreePage :=
  .interior [(.leaf [⟨1, ["x"]⟩, ⟨2, ["y"]⟩], 2)] (.leaf [⟨5, ["z"]⟩])

/-- Witness for C4: a `COUNT(*)` full scan of `c4tree` succeeds, its
visit trace is the in-order walk `[1, 2, 5]`, and that walk is strictly
ascending. -/
theorem C4_scan_inorder_witness :
    queryTable [] ⟨["count(*)"], [], true, 0⟩ c4tree ⟨0, [], []⟩
        = .ok ⟨3, [], [1, 2, 5]⟩
      ∧ ((⟨3, [], [1, 2, 5]⟩ : QueryCtx).visited = inorderRowIDs c4tree
        ∧ (inorderRowIDs c4tree).Pairwise (· < ·)) :=
  ⟨rfl,
    C4_scan_inorder [] ⟨["count(*)"], [], true, 0⟩ c4tree ⟨3, [], [1, 2, 5]⟩ rfl
      (by
        refine ⟨⟨?_, ?_, ?_, trivial⟩, ?_⟩
        · simp [WFB]
        · intro r hr
          simp [inorderRowIDs, inorderCells] at hr
          omega
        · intro r hr
          simp [inorderRowIDs, inorderCells, inorderCellsList] at hr
          omega
        · simp [WFB])
      (by decide) rfl⟩
